import Mathlib

/-!
  # WattWise community-forum vote and summary engine: a shallow embedding

  Embedding of `src/components/CommunityForum/services/ForumService.ts`:
  the voting system (`vote`, `createNotification`) and the summary
  functions (`generatePostSummary`, `generateCommentSummary`,
  `getPostSummary`, `getCommentSummary`).

  The Firestore document store is modelled as explicit lists of documents.
  A post document carries `upVotes`/`downVotes` counters (`Int`, since
  Firestore `increment` applies a signed delta with no bound check); a
  vote document lives at path `FORUM_POSTS/postId/VOTES/uid`, i.e. it is
  keyed by the pair `(postId, uid)`.  `vote` is embedded as the list of
  store operations the code issues, in the order it issues them, folded
  over the store; the operation list is kept explicit so that ordering
  claims can be stated.
-/

namespace WattWise

/-- A document in the FORUM_POSTS collection, restricted to the fields the
vote path touches (`upVotes`, `downVotes`).  Counters are `Int`: Firestore
`increment` applies a signed delta without any non-negativity guard. -/
structure PostDoc where
  id : String
  upVotes : Int
  downVotes : Int
  deriving DecidableEq, Repr

/-- A document in the VOTES subcollection of a post.  Its path
`FORUM_POSTS/postId/VOTES/uid` keys it by the pair `(postId, uid)`. -/
structure VoteDoc where
  postId : String
  uid : String
  value : Int
  deriving DecidableEq, Repr

/-- The slice of the Firestore state the vote path reads and writes. -/
structure Store where
  posts : List PostDoc
  votes : List VoteDoc
  deriving DecidableEq, Repr

/-- Does this vote document sit at path `FORUM_POSTS/pid/VOTES/uid`? -/
def isKey (pid uid : String) (r : VoteDoc) : Bool :=
  r.postId == pid && r.uid == uid

/-- Does this post document have id `pid`? -/
def isPost (pid : String) (p : PostDoc) : Bool :=
  p.id == pid

/-- The store operations `vote` issues: `deleteVoteDoc` is
`deleteDoc(voteDocRef)`, `updatePostCounters` is
`updateDoc(postRef, { upVotes: increment(du), downVotes: increment(dd) })`
(a delta of 0 standing for an absent field), and `setVoteDoc` is
`setDoc(voteDocRef, { value }, { merge: true })`. -/
inductive Op where
  | deleteVoteDoc (pid uid : String)
  | updatePostCounters (pid : String) (du dd : Int)
  | setVoteDoc (pid uid : String) (value : Int)
  deriving DecidableEq, Repr

/-- Effect of one store operation.  `deleteDoc` removes the document at the
key; `increment` adds the delta to the named counter of the addressed post;
`setDoc` with `merge: true` overwrites the `value` field when the document
exists and creates the document otherwise. -/
def applyOp (s : Store) : Op → Store
  | .deleteVoteDoc pid uid =>
      { s with votes := s.votes.filter (fun r => !(isKey pid uid r)) }
  | .updatePostCounters pid du dd =>
      { s with posts := s.posts.map (fun p =>
          if isPost pid p then
            { p with upVotes := p.upVotes + du, downVotes := p.downVotes + dd }
          else p) }
  | .setVoteDoc pid uid v =>
      if s.votes.any (isKey pid uid) then
        { s with votes := s.votes.map (fun r =>
            if isKey pid uid r then { r with value := v } else r) }
      else
        { s with votes := s.votes ++ [⟨pid, uid, v⟩] }

/-- The voter's previous vote: `getDoc(voteDocRef)` followed by
`existingSnap.exists() ? data.value ?? null : null`. -/
def getPrev (s : Store) (pid uid : String) : Option Int :=
  (s.votes.find? (isKey pid uid)).map VoteDoc.value

/-- Lookup of the post document, as far as the vote path reads it. -/
def getPost (s : Store) (pid : String) : Option PostDoc :=
  s.posts.find? (isPost pid)

/-- The operation sequence `vote(postId, uid, value)` issues, given the
previous vote `prev` it just read.  Mirrors the branching of the source:
`prev === value` is the unvote branch (delete the vote doc, then decrement
the matching counter); otherwise the counter update is computed from
whether `prev == null` (cast) or not (switch) and from `value === 1`, the
post is updated first, and the vote doc is written second. -/
def voteOps (prev : Option Int) (pid uid : String) (value : Int) : List Op :=
  if prev = some value then
    [ .deleteVoteDoc pid uid,
      if value = 1 then .updatePostCounters pid (-1) 0
      else .updatePostCounters pid 0 (-1) ]
  else
    [ (match prev with
       | none => if value = 1 then .updatePostCounters pid 1 0
                 else .updatePostCounters pid 0 1
       | some _ => if value = 1 then .updatePostCounters pid 1 (-1)
                 else .updatePostCounters pid (-1) 1),
      .setVoteDoc pid uid value ]

/-- The `vote` function: read the previous vote, then issue the operation
sequence against the store. -/
def vote (s : Store) (pid uid : String) (value : Int) : Store :=
  (voteOps (getPrev s pid uid) pid uid value).foldl applyOp s

/-- A sequence of submissions by one voter on one subject. -/
def voteSeq (s : Store) (pid uid : String) : List Int → Store
  | [] => s
  | v :: vs => voteSeq (vote s pid uid v) pid uid vs

/-- The classified vote transition of the specification: `Cast` when there
was no previous vote, `Unvote` when the same value is re-submitted,
`Switch` otherwise. -/
inductive Transition where
  | cast (v : Int)
  | unvote (v : Int)
  | toggle (prev v : Int)
  deriving DecidableEq, Repr

/-- Classification of a submission from the previous vote, following the
branch structure of `vote`: `prev === value` routes to `Unvote`, otherwise
`prev == null` distinguishes `Cast` from `Switch` (`toggle`). -/
def classify (prev : Option Int) (value : Int) : Transition :=
  if prev = some value then .unvote value
  else match prev with
    | none => .cast value
    | some p => .toggle p value

/-- The specification's authoritative delta table (spec 4.2), written from
the spec's words: `Cast(+1) = (+1,0)`, `Cast(-1) = (0,+1)`,
`Unvote(+1) = (-1,0)`, `Unvote(-1) = (0,-1)`, `Switch(to -1) = (-1,+1)`,
`Switch(to +1) = (+1,-1)`. -/
def deltaTable : Transition → Int × Int
  | .cast v => if v = 1 then (1, 0) else (0, 1)
  | .unvote v => if v = 1 then (-1, 0) else (0, -1)
  | .toggle _ v => if v = 1 then (1, -1) else (-1, 1)

/-- Application of a counter delta to a post document. -/
def addDelta (d : Int × Int) (p : PostDoc) : PostDoc :=
  { p with upVotes := p.upVotes + d.1, downVotes := p.downVotes + d.2 }

/-- Componentwise sum of the per-transition deltas of a transition list. -/
def deltaSum : List Transition → Int × Int
  | [] => (0, 0)
  | t :: ts => ((deltaTable t).1 + (deltaSum ts).1, (deltaTable t).2 + (deltaSum ts).2)

/-- The previous-vote state after one submission: re-submitting the same
value deletes the record, anything else leaves the record at the new value. -/
def afterPrev (prev : Option Int) (value : Int) : Option Int :=
  if prev = some value then none else some value

/-- The transitions classified along a submission sequence. -/
def transSeq (prev : Option Int) : List Int → List Transition
  | [] => []
  | v :: vs => classify prev v :: transSeq (afterPrev prev v) vs

/-- The storage key of a vote document: the `(subjectId, voterId)` pair. -/
def voteKey (r : VoteDoc) : String × String :=
  (r.postId, r.uid)

/-- Uniqueness of vote records: no two vote documents share the
`(postId, uid)` key.  This is what the document paths
`FORUM_POSTS/postId/VOTES/uid` enforce in the store. -/
def UniqueVotes (s : Store) : Prop :=
  (s.votes.map voteKey).Nodup

/-- Number of vote documents at the key `(pid, uid)`. -/
def voteRecCount (s : Store) (pid uid : String) : Nat :=
  (s.votes.filter (isKey pid uid)).length

/-- Number of up-vote records of post `pid`. -/
def upTally (s : Store) (pid : String) : Int :=
  ((s.votes.filter (fun r => r.postId == pid && r.value == 1)).length : Int)

/-- Number of down-vote records of post `pid`. -/
def downTally (s : Store) (pid : String) : Int :=
  ((s.votes.filter (fun r => r.postId == pid && r.value == -1)).length : Int)

/-- A store is consistent when vote keys are unique, every stored vote
value is `1` or `-1` (the only values `vote` accepts), and every post's
counters equal its vote tallies.  The state of a freshly created post
(`createPost` initializes `upVotes: 0, downVotes: 0` with no votes) is
consistent. -/
def Consistent (s : Store) : Prop :=
  UniqueVotes s ∧
  (∀ r ∈ s.votes, r.value = 1 ∨ r.value = -1) ∧
  ∀ p ∈ s.posts, p.upVotes = upTally s p.id ∧ p.downVotes = downTally s p.id

/-- Kind of store mutation an operation performs, for ordering claims:
a vote-record mutation or a counter mutation on the subject. -/
inductive OpKind where
  | recordMut
  | counterMut
  deriving DecidableEq, Repr

/-- Classification of each operation: `deleteDoc`/`setDoc` on the vote
document are record mutations, `updateDoc` on the post is the counter
mutation. -/
def opKind : Op → OpKind
  | .deleteVoteDoc _ _ => .recordMut
  | .updatePostCounters _ _ _ => .counterMut
  | .setVoteDoc _ _ _ => .recordMut

/-- Notification type, from `createNotification`. -/
inductive NotifType where
  | upvote
  | downvote
  deriving DecidableEq, Repr

/-- A document in the NOTIFICATIONS collection, as `createNotification`
writes it. -/
structure NotificationData where
  type : NotifType
  toUid : String
  fromUid : String
  postId : String
  deriving DecidableEq, Repr

/-- The `createNotification` function: `addDoc` appends one notification
document to the NOTIFICATIONS collection. -/
def createNotification (type : NotifType) (toUid fromUid postId : String)
    (log : List NotificationData) : List NotificationData :=
  log ++ [⟨type, toUid, fromUid, postId⟩]

/-- Modelled from the spec: the dispatch policy `maybeNotify` (spec 4.3) is
not under `src/` — `ForumService.ts` only exports the unconditional writer
`createNotification`, and the call sites that decide when to fire live in
UI components outside the provided sources.  Per the spec's words: fires
exactly once for `Cast` and for `Switch`, not at all for `Unvote`, and
self-votes (`voterId == subjectOwnerId`) are suppressed. -/
def maybeNotify (t : Transition) (ownerId voterId pid : String)
    (log : List NotificationData) : List NotificationData :=
  match t with
  | .unvote _ => log
  | .cast v =>
      if voterId = ownerId then log
      else createNotification (if v = 1 then .upvote else .downvote) ownerId voterId pid log
  | .toggle _ v =>
      if voterId = ownerId then log
      else createNotification (if v = 1 then .upvote else .downvote) ownerId voterId pid log

/-- Notification log accumulated along a submission sequence, one
`maybeNotify` per classified transition. -/
def notifSeq (prev : Option Int) (ownerId voterId pid : String)
    (log : List NotificationData) : List Int → List NotificationData
  | [] => log
  | v :: vs =>
      notifSeq (afterPrev prev v) ownerId voterId pid
        (maybeNotify (classify prev v) ownerId voterId pid log) vs

/-- Is the transition a `Cast` or a `Switch`? -/
def isCastOrSwitch : Transition → Bool
  | .unvote _ => false
  | .cast _ => true
  | .toggle _ _ => true

/-- A document in the POST_SUMMARIES collection, restricted to the fields
the summary path reads (`postId`, `summary`, `updatedAt`; timestamps as
naturals). -/
structure PostSummaryDoc where
  postId : String
  summary : String
  updatedAt : Nat
  deriving DecidableEq, Repr

/-- A forum comment, restricted to the fields `generateCommentSummary`
reads. -/
structure ForumCommentDoc where
  author : String
  content : String
  deriving DecidableEq, Repr

/-- A document in the COMMENT_SUMMARIES collection. -/
structure CommentSummaryDoc where
  postId : String
  summary : String
  commentCount : Nat
  updatedAt : Nat
  deriving DecidableEq, Repr

/-- Behaviour of one call to the external summarizer
`huggingFaceService.summarizeContent` on a given content: it may throw
(`Except.error`), resolve to a falsy result (`Except.ok none`), or resolve
to a summary text (`Except.ok (some text)`). -/
def GenBehavior := String → Except Unit (Option String)

/-- The `generatePostSummary` function.  The generator is invoked once on
the passed content inside a `try`; on a summary it appends a new
POST_SUMMARIES document and returns the text, on a falsy result it returns
`null`, and a thrown error is caught and `null` returned.  The result is
the returned value, the new POST_SUMMARIES collection, and the number of
generator invocations the call performed. -/
def generatePostSummary (gen : GenBehavior) (now : Nat) (postId content : String)
    (recs : List PostSummaryDoc) : Option String × List PostSummaryDoc × Nat :=
  match gen content with
  | .error _ => (none, recs, 1)
  | .ok none => (none, recs, 1)
  | .ok (some s) => (some s, recs ++ [⟨postId, s, now⟩], 1)

/-- The combined content `generateCommentSummary` builds:
`comments.map(c => author + ": " + content).join("\n\n")`. -/
def combinedContent (comments : List ForumCommentDoc) : String :=
  String.intercalate "\n\n" (comments.map (fun c => c.author ++ ": " ++ c.content))

/-- The `generateCommentSummary` function, analogous to
`generatePostSummary` over the COMMENT_SUMMARIES collection, invoked on
the combined comment content and recording `commentCount`. -/
def generateCommentSummary (gen : GenBehavior) (now : Nat) (postId : String)
    (comments : List ForumCommentDoc) (recs : List CommentSummaryDoc) :
    Option String × List CommentSummaryDoc × Nat :=
  match gen (combinedContent comments) with
  | .error _ => (none, recs, 1)
  | .ok none => (none, recs, 1)
  | .ok (some s) => (some s, recs ++ [⟨postId, s, comments.length, now⟩], 1)

/-- Model of the store query `orderBy(updatedAt, desc), limit(1)` followed
by `snapshot.docs[0]`: the first document achieving the maximal key among
the given ones (Firestore breaks equal-key ties by document id; the model
keeps the earliest document). -/
def topByKey {α : Type} (key : α → Nat) : List α → Option α
  | [] => none
  | r :: rs =>
      match topByKey key rs with
      | none => some r
      | some m => if key r < key m then some m else some r

/-- The `getPostSummary` function: query POST_SUMMARIES for the documents
of `pid` ordered by `updatedAt` descending with `limit(1)` and return the
first, `null` when none match; a store error is caught and `null`
returned. -/
def getPostSummary (q : Except Unit (List PostSummaryDoc)) (pid : String) :
    Option PostSummaryDoc :=
  match q with
  | .error _ => none
  | .ok recs => topByKey PostSummaryDoc.updatedAt (recs.filter (fun r => r.postId == pid))

/-- The `getCommentSummary` function, identical over COMMENT_SUMMARIES. -/
def getCommentSummary (q : Except Unit (List CommentSummaryDoc)) (pid : String) :
    Option CommentSummaryDoc :=
  match q with
  | .error _ => none
  | .ok recs => topByKey CommentSummaryDoc.updatedAt (recs.filter (fun r => r.postId == pid))

end WattWise
namespace WattWise

/-- Counter updates leave the votes subcollection untouched. -/
theorem votes_applyOp_counters (s : Store) (pid : String) (du dd : Int) :
    (applyOp s (.updatePostCounters pid du dd)).votes = s.votes := rfl

/-- Vote-record operations leave the posts collection untouched. -/
theorem posts_applyOp_delete (s : Store) (pid uid : String) :
    (applyOp s (.deleteVoteDoc pid uid)).posts = s.posts := rfl

theorem posts_applyOp_set (s : Store) (pid uid : String) (v : Int) :
    (applyOp s (.setVoteDoc pid uid v)).posts = s.posts := by
  simp only [applyOp]
  split <;> rfl

/-- Effect of the counter update on the addressed post document. -/
theorem getPost_applyOp_counters (s : Store) (pid : String) (du dd : Int) :
    getPost (applyOp s (.updatePostCounters pid du dd)) pid
      = (getPost s pid).map (addDelta (du, dd)) := by
  show ((s.posts.map _).find? _) = _
  rw [List.find?_map]
  have hc : (isPost pid) ∘ (fun p : PostDoc =>
      if isPost pid p then
        { p with upVotes := p.upVotes + du, downVotes := p.downVotes + dd }
      else p) = isPost pid := by
    funext p
    by_cases h : isPost pid p <;> simp [isPost] at h ⊢ <;> simp [isPost, h]
  rw [hc]
  cases hf : s.posts.find? (isPost pid) with
  | none => simp [getPost, hf]
  | some p =>
      have hp := List.find?_some hf
      simp [getPost, hf, hp, addDelta]

end WattWise
namespace WattWise

/-- After deleting the vote document, no record remains at its key. -/
theorem getPrev_applyOp_delete (s : Store) (pid uid : String) :
    getPrev (applyOp s (.deleteVoteDoc pid uid)) pid uid = none := by
  show ((s.votes.filter _).find? _).map _ = none
  rw [List.find?_eq_none.2]
  · rfl
  · intro x hx
    rcases List.mem_filter.1 hx with ⟨-, hk⟩
    simp at hk
    simp [hk]

/-- Counter updates do not touch the votes subcollection. -/
theorem getPrev_applyOp_counters (s : Store) (pid2 pid uid : String) (du dd : Int) :
    getPrev (applyOp s (.updatePostCounters pid2 du dd)) pid uid = getPrev s pid uid := rfl

/-- After the merge-write of the vote document, the record at its key holds
the written value. -/
theorem getPrev_applyOp_set (s : Store) (pid uid : String) (v : Int) :
    getPrev (applyOp s (.setVoteDoc pid uid v)) pid uid = some v := by
  simp only [applyOp]
  by_cases hany : s.votes.any (isKey pid uid)
  · rw [if_pos hany]
    show ((s.votes.map _).find? _).map _ = _
    rw [List.find?_map]
    have hc : (isKey pid uid) ∘ (fun r : VoteDoc =>
        if isKey pid uid r then { r with value := v } else r) = isKey pid uid := by
      funext r
      show isKey pid uid (if isKey pid uid r then { r with value := v } else r)
        = isKey pid uid r
      cases h : isKey pid uid r
      · rw [if_neg (by simp [h])]
        exact h
      · rw [if_pos (by simp [h])]
        exact h
    rw [hc]
    rcases List.any_eq_true.1 hany with ⟨x, hx, hpx⟩
    cases hf : s.votes.find? (isKey pid uid) with
    | none => exact absurd hpx (List.find?_eq_none.1 hf x hx)
    | some r =>
        have hp := List.find?_some hf
        simp [hp]
  · rw [if_neg hany]
    simp only [getPrev]
    rw [List.find?_append, List.find?_eq_none.2]
    · simp [isKey]
    · intro x hx
      intro hk
      exact hany (List.any_eq_true.2 ⟨x, hx, hk⟩)

/-- Effect of one `vote` call on the voter's record: re-submitting the
stored value deletes it, anything else leaves it at the submitted value. -/
theorem getPrev_vote (s : Store) (pid uid : String) (v : Int) :
    getPrev (vote s pid uid v) pid uid = afterPrev (getPrev s pid uid) v := by
  unfold vote voteOps afterPrev
  by_cases h : getPrev s pid uid = some v
  · rw [if_pos h, if_pos h]
    simp only [List.foldl_cons, List.foldl_nil]
    split
    all_goals rw [getPrev_applyOp_counters, getPrev_applyOp_delete]
  · rw [if_neg h, if_neg h]
    simp only [List.foldl_cons, List.foldl_nil]
    rw [getPrev_applyOp_set]

end WattWise
namespace WattWise

/-- Vote-record operations do not touch the posts collection. -/
theorem getPost_applyOp_delete (s : Store) (pid2 uid2 pid : String) :
    getPost (applyOp s (.deleteVoteDoc pid2 uid2)) pid = getPost s pid := rfl

theorem getPost_applyOp_set (s : Store) (pid2 uid2 pid : String) (v : Int) :
    getPost (applyOp s (.setVoteDoc pid2 uid2 v)) pid = getPost s pid := by
  simp only [applyOp]
  split <;> rfl

/-- Effect of one `vote` call on the subject's counters: exactly the delta
of the authoritative table at the classified transition. -/
theorem getPost_vote (s : Store) (pid uid : String) (v : Int) :
    getPost (vote s pid uid v) pid
      = (getPost s pid).map (addDelta (deltaTable (classify (getPrev s pid uid) v))) := by
  unfold vote voteOps classify
  by_cases h : getPrev s pid uid = some v
  · rw [if_pos h, if_pos h]
    simp only [List.foldl_cons, List.foldl_nil]
    by_cases hv : v = 1 <;>
      simp only [if_pos, if_neg, hv, if_true, if_false] <;>
      rw [getPost_applyOp_counters, getPost_applyOp_delete] <;>
      simp [deltaTable, hv]
  · rw [if_neg h, if_neg h]
    cases hp : getPrev s pid uid with
    | none =>
        simp only [List.foldl_cons, List.foldl_nil]
        by_cases hv : v = 1 <;>
          simp only [if_pos, if_neg, hv, if_true, if_false] <;>
          rw [getPost_applyOp_set, getPost_applyOp_counters] <;>
          simp [deltaTable, hv]
    | some p =>
        simp only [List.foldl_cons, List.foldl_nil]
        by_cases hv : v = 1 <;>
          simp only [if_pos, if_neg, hv, if_true, if_false] <;>
          rw [getPost_applyOp_set, getPost_applyOp_counters] <;>
          simp [deltaTable, hv]

/-- Composition of two counter deltas. -/
theorem addDelta_comp (d1 d2 : Int × Int) (p : PostDoc) :
    addDelta d2 (addDelta d1 p) = addDelta (d1.1 + d2.1, d1.2 + d2.2) p := by
  simp [addDelta, add_assoc]

/-- Counters along a whole submission sequence: the componentwise sum of
the per-transition deltas of the classified transitions. -/
theorem getPost_voteSeq (vs : List Int) (s : Store) (pid uid : String) :
    getPost (voteSeq s pid uid vs) pid
      = (getPost s pid).map (addDelta (deltaSum (transSeq (getPrev s pid uid) vs))) := by
  induction vs generalizing s with
  | nil =>
      simp [voteSeq, transSeq, deltaSum]
      cases getPost s pid <;> simp [addDelta]
  | cons v vs ih =>
      show getPost (voteSeq (vote s pid uid v) pid uid vs) pid = _
      rw [ih, getPrev_vote, getPost_vote]
      rw [Option.map_map]
      cases getPost s pid with
      | none => rfl
      | some p =>
          simp [Function.comp, transSeq, deltaSum, addDelta_comp]

end WattWise
namespace WattWise

/-- Splitting a count along a second predicate. -/
theorem countP_split {α : Type} (q p : α → Bool) (l : List α) :
    l.countP q = l.countP (fun a => q a && p a) + l.countP (fun a => q a && !p a) := by
  induction l with
  | nil => rfl
  | cons a as ih =>
      simp only [List.countP_cons, ih]
      cases hq : q a <;> cases hp : p a <;> simp [hq, hp] <;> omega

/-- Under a unique key, the count of key-matching elements satisfying `q`
is decided by the found element. -/
theorem countP_and_of_unique {α : Type} (q isK : α → Bool) (l : List α) (r0 : α)
    (hle : l.countP isK ≤ 1) (hf : l.find? isK = some r0) :
    l.countP (fun a => q a && isK a) = if q r0 then 1 else 0 := by
  induction l with
  | nil => simp at hf
  | cons a as ih =>
      cases ha : isK a
      · rw [List.find?_cons] at hf
        simp only [ha] at hf
        rw [List.countP_cons] at hle ⊢
        simp only [ha, Bool.and_false, if_neg] at hle ⊢
        have := ih (by omega) hf
        simpa using this
      · rw [List.find?_cons] at hf
        simp only [ha] at hf
        injection hf with hf
        subst hf
        rw [List.countP_cons] at hle ⊢
        simp only [ha, if_pos] at hle
        have hz : as.countP isK = 0 := by omega
        have hnone : ∀ x ∈ as, ¬ isK x = true := List.countP_eq_zero.1 hz
        have : as.countP (fun a => q a && isK a) = 0 :=
          List.countP_eq_zero.2 (fun x hx => by simp [hnone x hx])
        rw [this]
        cases hq : q a <;> simp [hq, ha]

/-- Mapping with a function that is the identity on every element. -/
theorem map_id_of {α : Type} (f : α → α) (l : List α) (h : ∀ x ∈ l, f x = x) :
    l.map f = l := by
  induction l with
  | nil => rfl
  | cons a as ih => simp [h a (by simp), ih (fun x hx => h x (by simp [hx]))]

/-- Count after removing the documents at a unique key. -/
theorem countP_filter_out {α : Type} (q isK : α → Bool) (l : List α) (r0 : α)
    (hle : l.countP isK ≤ 1) (hf : l.find? isK = some r0) :
    (l.filter (fun a => !(isK a))).countP q + (if q r0 then 1 else 0) = l.countP q := by
  rw [List.countP_filter, ← countP_and_of_unique q isK l r0 hle hf]
  have := countP_split q isK l
  omega

/-- Count after the merge-write at a unique key. -/
theorem countP_map_set {α : Type} (q isK : α → Bool) (g : α → α) (l : List α) (r0 : α)
    (hle : l.countP isK ≤ 1) (hf : l.find? isK = some r0) :
    (l.map (fun a => if isK a then g a else a)).countP q + (if q r0 then 1 else 0)
      = l.countP q + (if q (g r0) then 1 else 0) := by
  induction l with
  | nil => simp at hf
  | cons a as ih =>
      cases ha : isK a
      · rw [List.find?_cons] at hf
        simp only [ha] at hf
        rw [List.countP_cons] at hle
        simp only [ha, if_neg] at hle
        have := ih (by omega) hf
        simp only [List.map_cons, ha, if_neg, Bool.false_eq_true, not_false_iff, ite_false,
          List.countP_cons]
        omega
      · rw [List.find?_cons] at hf
        simp only [ha] at hf
        injection hf with hf
        subst hf
        rw [List.countP_cons] at hle
        simp only [ha, if_pos] at hle
        have hz : as.countP isK = 0 := by omega
        have hnone : ∀ x ∈ as, ¬ isK x = true := List.countP_eq_zero.1 hz
        have hmap : as.map (fun a => if isK a then g a else a) = as :=
          map_id_of _ _ (fun x hx => by
            have := hnone x hx
            simp only [Bool.not_eq_true] at this
            simp [this])
        simp only [List.map_cons, ha, ite_true, List.countP_cons, hmap]
        omega

/-- Count after appending one document. -/
theorem countP_append_one {α : Type} (q : α → Bool) (l : List α) (a : α) :
    (l ++ [a]).countP q = l.countP q + (if q a then 1 else 0) := by
  rw [List.countP_append]
  simp [List.countP_cons]

end WattWise
namespace WattWise

/-- Characterization of the previous vote by the underlying document. -/
theorem getPrev_eq_some {s : Store} {pid uid : String} {v : Int}
    (h : getPrev s pid uid = some v) :
    ∃ r0, s.votes.find? (isKey pid uid) = some r0 ∧ r0.value = v := by
  unfold getPrev at h
  cases hf : s.votes.find? (isKey pid uid) with
  | none => rw [hf] at h; simp at h
  | some r0 =>
      rw [hf] at h
      simp at h
      exact ⟨r0, rfl, h⟩

theorem getPrev_eq_none {s : Store} {pid uid : String}
    (h : getPrev s pid uid = none) :
    s.votes.find? (isKey pid uid) = none := by
  unfold getPrev at h
  cases hf : s.votes.find? (isKey pid uid) with
  | none => rfl
  | some r0 => rw [hf] at h; simp at h

/-- Store effect of the unvote branch. -/
theorem vote_unvote_effects (s : Store) (pid uid : String) (v : Int)
    (h : getPrev s pid uid = some v) :
    (vote s pid uid v).votes = s.votes.filter (fun r => !(isKey pid uid r))
    ∧ (vote s pid uid v).posts
        = s.posts.map (fun p =>
            if isPost pid p then addDelta (deltaTable (.unvote v)) p else p) := by
  unfold vote voteOps
  rw [if_pos h]
  simp only [List.foldl_cons, List.foldl_nil]
  constructor
  · by_cases hv : v = 1 <;> simp [hv, applyOp]
  · by_cases hv : v = 1 <;> simp [hv, applyOp, deltaTable, addDelta]

/-- Store effect of the cast branch. -/
theorem vote_cast_effects (s : Store) (pid uid : String) (v : Int)
    (h : getPrev s pid uid = none) :
    (vote s pid uid v).votes = s.votes ++ [⟨pid, uid, v⟩]
    ∧ (vote s pid uid v).posts
        = s.posts.map (fun p =>
            if isPost pid p then addDelta (deltaTable (.cast v)) p else p) := by
  have hany : s.votes.any (isKey pid uid) = false := by
    rw [Bool.eq_false_iff]
    intro hx
    rcases List.any_eq_true.1 hx with ⟨x, hmem, hk⟩
    exact absurd hk (List.find?_eq_none.1 (getPrev_eq_none h) x hmem)
  unfold vote voteOps
  rw [h]
  rw [if_neg (by simp)]
  simp only [List.foldl_cons, List.foldl_nil]
  constructor
  · by_cases hv : v = 1 <;>
      simp [hv, applyOp, hany]
  · by_cases hv : v = 1 <;>
      simp [hv, applyOp, hany, deltaTable, addDelta]

/-- Store effect of the switch branch. -/
theorem vote_switch_effects (s : Store) (pid uid : String) (v v0 : Int)
    (h : getPrev s pid uid = some v0) (hne : v0 ≠ v) :
    (vote s pid uid v).votes
        = s.votes.map (fun r => if isKey pid uid r then { r with value := v } else r)
    ∧ (vote s pid uid v).posts
        = s.posts.map (fun p =>
            if isPost pid p then addDelta (deltaTable (.toggle v0 v)) p else p) := by
  rcases getPrev_eq_some h with ⟨r0, hf, -⟩
  have hany : s.votes.any (isKey pid uid) = true :=
    List.any_eq_true.2 ⟨r0, List.mem_of_find?_eq_some hf, List.find?_some hf⟩
  unfold vote voteOps
  rw [h]
  rw [if_neg (by simp [Option.some_inj]; exact hne)]
  simp only [List.foldl_cons, List.foldl_nil]
  constructor
  · by_cases hv : v = 1 <;>
      simp [hv, applyOp, hany]
  · by_cases hv : v = 1 <;>
      simp [hv, applyOp, hany, deltaTable, addDelta]

end WattWise
namespace WattWise

/-- A vote document matches the key exactly when its storage key is the
pair. -/
theorem isKey_iff (pid uid : String) (r : VoteDoc) :
    isKey pid uid r = true ↔ voteKey r = (pid, uid) := by
  simp [isKey, voteKey, Prod.ext_iff]

/-- Unique storage keys bound the number of documents at any key by one. -/
theorem countP_isKey_le_one (l : List VoteDoc) (hn : (l.map voteKey).Nodup)
    (pid uid : String) : l.countP (isKey pid uid) ≤ 1 := by
  induction l with
  | nil => simp
  | cons r rs ih =>
      rw [List.map_cons, List.nodup_cons] at hn
      rw [List.countP_cons]
      cases hk : isKey pid uid r
      · simpa using ih hn.2
      · have hz : rs.countP (isKey pid uid) = 0 := by
          rw [List.countP_eq_zero]
          intro x hx hkx
          exact hn.1 (List.mem_map.2 ⟨x, hx,
            ((isKey_iff pid uid x).1 hkx).trans ((isKey_iff pid uid r).1 hk).symm⟩)
        simp [hz, hk]

/-- Every `vote` call preserves the uniqueness of vote-record keys. -/
theorem uniqueVotes_vote (s : Store) (pid uid : String) (v : Int)
    (h : UniqueVotes s) : UniqueVotes (vote s pid uid v) := by
  unfold UniqueVotes at h ⊢
  by_cases hp : getPrev s pid uid = some v
  · rw [(vote_unvote_effects s pid uid v hp).1]
    exact ((List.filter_sublist _).map voteKey).nodup h
  · cases hprev : getPrev s pid uid with
    | none =>
        rw [(vote_cast_effects s pid uid v hprev).1]
        rw [List.map_append, List.nodup_append]
        refine ⟨h, by simp, ?_⟩
        intro k hk hk2
        simp only [List.map_cons, List.map_nil, List.mem_singleton] at hk2
        subst hk2
        rcases List.mem_map.1 hk with ⟨r, hr, hkey⟩
        have : isKey pid uid r = true := (isKey_iff pid uid r).2 hkey
        exact absurd this (List.find?_eq_none.1 (getPrev_eq_none hprev) r hr)
    | some v0 =>
        have hne : v0 ≠ v := fun he => hp (he ▸ hprev)
        rw [(vote_switch_effects s pid uid v v0 hprev hne).1]
        rw [List.map_map]
        have : voteKey ∘ (fun r : VoteDoc =>
            if isKey pid uid r then { r with value := v } else r) = voteKey := by
          funext r
          show voteKey (if isKey pid uid r then { r with value := v } else r) = voteKey r
          split <;> rfl
        rw [this]
        exact h

end WattWise
namespace WattWise

/-- Tallies as counts. -/
theorem upTally_countP (s : Store) (pid' : String) :
    upTally s pid' = (s.votes.countP (fun r => r.postId == pid' && r.value == 1) : Int) := by
  rw [upTally, List.countP_eq_length_filter]

theorem downTally_countP (s : Store) (pid' : String) :
    downTally s pid' = (s.votes.countP (fun r => r.postId == pid' && r.value == -1) : Int) := by
  rw [downTally, List.countP_eq_length_filter]

/-- The key record found for a previous vote has the key's fields and the
previous value. -/
theorem find?_key_fields {s : Store} {pid uid : String} {r0 : VoteDoc}
    (hf : s.votes.find? (isKey pid uid) = some r0) :
    r0.postId = pid ∧ r0.uid = uid := by
  have := (isKey_iff pid uid r0).1 (List.find?_some hf)
  simp [voteKey, Prod.ext_iff] at this
  exact this

/-- Tally deltas of the unvote branch. -/
theorem tallies_unvote (s : Store) (pid uid : String) (v : Int) (pid' : String)
    (hu : UniqueVotes s) (h : getPrev s pid uid = some v) :
    upTally (vote s pid uid v) pid'
        = upTally s pid' - (if pid = pid' ∧ v = 1 then 1 else 0)
    ∧ downTally (vote s pid uid v) pid'
        = downTally s pid' - (if pid = pid' ∧ v = -1 then 1 else 0) := by
  rcases getPrev_eq_some h with ⟨r0, hf, hval⟩
  rcases find?_key_fields hf with ⟨hrp, -⟩
  have hle := countP_isKey_le_one s.votes hu pid uid
  have hv := (vote_unvote_effects s pid uid v h).1
  constructor
  · rw [upTally_countP, upTally_countP, hv]
    have := countP_filter_out (fun r => r.postId == pid' && r.value == 1)
      (isKey pid uid) s.votes r0 hle hf
    have hq : (r0.postId == pid' && r0.value == 1)
        = (decide (pid = pid' ∧ v = 1)) := by
      rw [hrp, hval]
      simp [Bool.and_eq_true, decide_eq_true_eq]
      by_cases h1 : pid = pid' <;> by_cases h2 : v = 1 <;> simp [h1, h2]
    simp only [hq] at this
    by_cases hc : pid = pid' ∧ v = 1 <;> simp [hc] at this ⊢ <;> omega
  · rw [downTally_countP, downTally_countP, hv]
    have := countP_filter_out (fun r => r.postId == pid' && r.value == -1)
      (isKey pid uid) s.votes r0 hle hf
    have hq : (r0.postId == pid' && r0.value == -1)
        = (decide (pid = pid' ∧ v = -1)) := by
      rw [hrp, hval]
      by_cases h1 : pid = pid' <;> by_cases h2 : v = -1 <;> simp [h1, h2]
    simp only [hq] at this
    by_cases hc : pid = pid' ∧ v = -1 <;> simp [hc] at this ⊢ <;> omega

end WattWise
namespace WattWise

/-- Tally deltas of the cast branch. -/
theorem tallies_cast (s : Store) (pid uid : String) (v : Int) (pid' : String)
    (h : getPrev s pid uid = none) :
    upTally (vote s pid uid v) pid'
        = upTally s pid' + (if pid = pid' ∧ v = 1 then 1 else 0)
    ∧ downTally (vote s pid uid v) pid'
        = downTally s pid' + (if pid = pid' ∧ v = -1 then 1 else 0) := by
  have hv := (vote_cast_effects s pid uid v h).1
  constructor
  · rw [upTally_countP, upTally_countP, hv, countP_append_one]
    have hq : ((⟨pid, uid, v⟩ : VoteDoc).postId == pid' && (⟨pid, uid, v⟩ : VoteDoc).value == 1)
        = (decide (pid = pid' ∧ v = 1)) := by
      by_cases h1 : pid = pid' <;> by_cases h2 : v = 1 <;> simp [h1, h2]
    simp only [hq]
    by_cases hc : pid = pid' ∧ v = 1 <;> simp [hc]
  · rw [downTally_countP, downTally_countP, hv, countP_append_one]
    have hq : ((⟨pid, uid, v⟩ : VoteDoc).postId == pid' && (⟨pid, uid, v⟩ : VoteDoc).value == -1)
        = (decide (pid = pid' ∧ v = -1)) := by
      by_cases h1 : pid = pid' <;> by_cases h2 : v = -1 <;> simp [h1, h2]
    simp only [hq]
    by_cases hc : pid = pid' ∧ v = -1 <;> simp [hc]

/-- Tally deltas of the switch branch. -/
theorem tallies_switch (s : Store) (pid uid : String) (v v0 : Int) (pid' : String)
    (hu : UniqueVotes s) (h : getPrev s pid uid = some v0) (hne : v0 ≠ v) :
    upTally (vote s pid uid v) pid'
        = upTally s pid' - (if pid = pid' ∧ v0 = 1 then 1 else 0)
            + (if pid = pid' ∧ v = 1 then 1 else 0)
    ∧ downTally (vote s pid uid v) pid'
        = downTally s pid' - (if pid = pid' ∧ v0 = -1 then 1 else 0)
            + (if pid = pid' ∧ v = -1 then 1 else 0) := by
  rcases getPrev_eq_some h with ⟨r0, hf, hval⟩
  rcases find?_key_fields hf with ⟨hrp, -⟩
  have hle := countP_isKey_le_one s.votes hu pid uid
  have hveff := (vote_switch_effects s pid uid v v0 h hne).1
  constructor
  · rw [upTally_countP, upTally_countP, hveff]
    have heq : s.votes.map (fun r => if isKey pid uid r then { r with value := v } else r)
        = s.votes.map (fun r => if isKey pid uid r
            then (fun a : VoteDoc => { a with value := v }) r else r) := rfl
    rw [heq]
    have := countP_map_set (fun r => r.postId == pid' && r.value == 1)
      (isKey pid uid) (fun a : VoteDoc => { a with value := v }) s.votes r0 hle hf
    have hq1 : (r0.postId == pid' && r0.value == 1) = (decide (pid = pid' ∧ v0 = 1)) := by
      rw [hrp, hval]
      by_cases h1 : pid = pid' <;> by_cases h2 : v0 = 1 <;> simp [h1, h2]
    have hq2 : (({ r0 with value := v } : VoteDoc).postId == pid'
        && ({ r0 with value := v } : VoteDoc).value == 1) = (decide (pid = pid' ∧ v = 1)) := by
      show (r0.postId == pid' && v == 1) = _
      rw [hrp]
      by_cases h1 : pid = pid' <;> by_cases h2 : v = 1 <;> simp [h1, h2]
    simp only [hq1, hq2] at this
    by_cases hpp : pid = pid' <;> by_cases hva : v0 = 1 <;> by_cases hvb : v = 1 <;>
      simp [hpp, hva, hvb] at this ⊢ <;> omega
  · rw [downTally_countP, downTally_countP, hveff]
    have heq : s.votes.map (fun r => if isKey pid uid r then { r with value := v } else r)
        = s.votes.map (fun r => if isKey pid uid r
            then (fun a : VoteDoc => { a with value := v }) r else r) := rfl
    rw [heq]
    have := countP_map_set (fun r => r.postId == pid' && r.value == -1)
      (isKey pid uid) (fun a : VoteDoc => { a with value := v }) s.votes r0 hle hf
    have hq1 : (r0.postId == pid' && r0.value == -1) = (decide (pid = pid' ∧ v0 = -1)) := by
      rw [hrp, hval]
      by_cases h1 : pid = pid' <;> by_cases h2 : v0 = -1 <;> simp [h1, h2]
    have hq2 : (({ r0 with value := v } : VoteDoc).postId == pid'
        && ({ r0 with value := v } : VoteDoc).value == -1) = (decide (pid = pid' ∧ v = -1)) := by
      show (r0.postId == pid' && v == -1) = _
      rw [hrp]
      by_cases h1 : pid = pid' <;> by_cases h2 : v = -1 <;> simp [h1, h2]
    simp only [hq1, hq2] at this
    by_cases hpp : pid = pid' <;> by_cases hva : v0 = -1 <;> by_cases hvb : v = -1 <;>
      simp [hpp, hva, hvb] at this ⊢ <;> omega

end WattWise
namespace WattWise

/-- Counters stay in lockstep with tallies when the posts collection gets
the same delta the tallies got. -/
theorem tallies_goal (s t : Store) (pid : String) (d : Int × Int)
    (hposts : t.posts = s.posts.map (fun p => if isPost pid p then addDelta d p else p))
    (htu : ∀ pid', upTally t pid' = upTally s pid' + (if pid = pid' then d.1 else 0))
    (htd : ∀ pid', downTally t pid' = downTally s pid' + (if pid = pid' then d.2 else 0))
    (hcnt : ∀ p ∈ s.posts, p.upVotes = upTally s p.id ∧ p.downVotes = downTally s p.id) :
    ∀ p ∈ t.posts, p.upVotes = upTally t p.id ∧ p.downVotes = downTally t p.id := by
  intro p' hp'
  rw [hposts] at hp'
  rcases List.mem_map.1 hp' with ⟨p, hpm, rfl⟩
  rcases hcnt p hpm with ⟨hpu, hpd⟩
  by_cases hk : isPost pid p
  · have hid : p.id = pid := by simpa [isPost] using hk
    simp only [if_pos hk]
    have hida : (addDelta d p).id = p.id := rfl
    rw [hida]
    constructor
    · show p.upVotes + d.1 = upTally t p.id
      rw [htu p.id, hid, if_pos rfl, hpu, hid]
    · show p.downVotes + d.2 = downTally t p.id
      rw [htd p.id, hid, if_pos rfl, hpd, hid]
  · have hid : pid ≠ p.id := by
      intro he
      exact hk (by simp [isPost, he])
    simp only [if_neg hk]
    constructor
    · rw [htu p.id, if_neg hid, add_zero]
      exact hpu
    · rw [htd p.id, if_neg hid, add_zero]
      exact hpd

/-- Stored vote values stay in `{1, -1}` across a `vote` call with an
admissible value. -/
theorem values_vote (s : Store) (pid uid : String) (v : Int)
    (hv1 : v = 1 ∨ v = -1) (hvals : ∀ r ∈ s.votes, r.value = 1 ∨ r.value = -1) :
    ∀ r ∈ (vote s pid uid v).votes, r.value = 1 ∨ r.value = -1 := by
  by_cases hp : getPrev s pid uid = some v
  · rw [(vote_unvote_effects s pid uid v hp).1]
    intro r hr
    exact hvals r (List.mem_of_mem_filter hr)
  · cases hprev : getPrev s pid uid with
    | none =>
        rw [(vote_cast_effects s pid uid v hprev).1]
        intro r hr
        rcases List.mem_append.1 hr with h | h
        · exact hvals r h
        · simp at h
          subst h
          exact hv1
    | some v0 =>
        have hne : v0 ≠ v := fun he => hp (he ▸ hprev)
        rw [(vote_switch_effects s pid uid v v0 hprev hne).1]
        intro r hr
        rcases List.mem_map.1 hr with ⟨a, ha, rfl⟩
        by_cases hk : isKey pid uid a
        · rw [if_pos hk]
          exact hv1
        · rw [if_neg hk]
          exact hvals a ha

/-- Consistency is preserved by every `vote` call with an admissible
value. -/
theorem consistent_vote (s : Store) (pid uid : String) (v : Int)
    (hv1 : v = 1 ∨ v = -1) (hc : Consistent s) : Consistent (vote s pid uid v) := by
  obtain ⟨hu, hvals, hcnt⟩ := hc
  refine ⟨uniqueVotes_vote s pid uid v hu, values_vote s pid uid v hv1 hvals, ?_⟩
  by_cases hp : getPrev s pid uid = some v
  · refine tallies_goal s (vote s pid uid v) pid (deltaTable (.unvote v))
      (vote_unvote_effects s pid uid v hp).2 ?_ ?_ hcnt
    · intro pid'
      have := (tallies_unvote s pid uid v pid' hu hp).1
      rcases hv1 with h1 | h1 <;> subst h1 <;>
        by_cases hpp : pid = pid' <;> simp [hpp, deltaTable] at this ⊢ <;> omega
    · intro pid'
      have := (tallies_unvote s pid uid v pid' hu hp).2
      rcases hv1 with h1 | h1 <;> subst h1 <;>
        by_cases hpp : pid = pid' <;> simp [hpp, deltaTable] at this ⊢ <;> omega
  · cases hprev : getPrev s pid uid with
    | none =>
        refine tallies_goal s (vote s pid uid v) pid (deltaTable (.cast v))
          (vote_cast_effects s pid uid v hprev).2 ?_ ?_ hcnt
        · intro pid'
          have := (tallies_cast s pid uid v pid' hprev).1
          rcases hv1 with h1 | h1 <;> subst h1 <;>
            by_cases hpp : pid = pid' <;> simp [hpp, deltaTable] at this ⊢ <;> omega
        · intro pid'
          have := (tallies_cast s pid uid v pid' hprev).2
          rcases hv1 with h1 | h1 <;> subst h1 <;>
            by_cases hpp : pid = pid' <;> simp [hpp, deltaTable] at this ⊢ <;> omega
    | some v0 =>
        have hne : v0 ≠ v := fun he => hp (he ▸ hprev)
        have hv0 : v0 = 1 ∨ v0 = -1 := by
          rcases getPrev_eq_some hprev with ⟨r0, hf, hval⟩
          exact hval ▸ hvals r0 (List.mem_of_find?_eq_some hf)
        refine tallies_goal s (vote s pid uid v) pid (deltaTable (.toggle v0 v))
          (vote_switch_effects s pid uid v v0 hprev hne).2 ?_ ?_ hcnt
        · intro pid'
          have := (tallies_switch s pid uid v v0 pid' hu hprev hne).1
          rcases hv1 with h1 | h1 <;> rcases hv0 with h0 | h0 <;> subst h1 <;> subst h0 <;>
            first
            | exact absurd rfl hne
            | by_cases hpp : pid = pid' <;> simp [hpp, deltaTable] at this ⊢ <;> omega
        · intro pid'
          have := (tallies_switch s pid uid v v0 pid' hu hprev hne).2
          rcases hv1 with h1 | h1 <;> rcases hv0 with h0 | h0 <;> subst h1 <;> subst h0 <;>
            first
            | exact absurd rfl hne
            | by_cases hpp : pid = pid' <;> simp [hpp, deltaTable] at this ⊢ <;> omega

end WattWise
namespace WattWise

/-- Consistency is preserved along any sequence of admissible votes. -/
theorem consistent_voteSeq (vs : List Int) (s : Store) (pid uid : String)
    (hvs : ∀ v ∈ vs, v = 1 ∨ v = -1) (hc : Consistent s) :
    Consistent (voteSeq s pid uid vs) := by
  induction vs generalizing s with
  | nil => exact hc
  | cons v vs ih =>
      exact ih (vote s pid uid v) (fun x hx => hvs x (by simp [hx]))
        (consistent_vote s pid uid v (hvs v (by simp)) hc)

/-- In a consistent store every counter is a tally, hence non-negative. -/
theorem consistent_nonneg (s : Store) (hc : Consistent s) :
    ∀ p ∈ s.posts, 0 ≤ p.upVotes ∧ 0 ≤ p.downVotes := by
  intro p hp
  rcases hc.2.2 p hp with ⟨hu, hd⟩
  rw [hu, hd, upTally, downTally]
  exact ⟨Int.natCast_nonneg _, Int.natCast_nonneg _⟩

/-- Bound on the number of records at one key, from key uniqueness. -/
theorem voteRecCount_le_one (s : Store) (pid uid : String) (h : UniqueVotes s) :
    voteRecCount s pid uid ≤ 1 := by
  rw [voteRecCount, ← List.countP_eq_length_filter]
  exact countP_isKey_le_one s.votes h pid uid

end WattWise
namespace WattWise

/-- C1: for every call to `vote(postId, uid, value)` with previous vote
`prev`, the counter deltas applied to the subject's `upVotes`/`downVotes`
are exactly those of the authoritative delta table at the classified
transition, and over any submission sequence by a fixed voter on a fixed
subject the final counters are the initial ones plus the sum of the
per-transition deltas. -/
theorem C1_counter_deltas_follow_table (s : Store) (pid uid : String) (v : Int)
    (vs : List Int) :
    getPost (vote s pid uid v) pid
      = (getPost s pid).map (addDelta (deltaTable (classify (getPrev s pid uid) v)))
    ∧ getPost (voteSeq s pid uid vs) pid
      = (getPost s pid).map (addDelta (deltaSum (transSeq (getPrev s pid uid) vs))) :=
  ⟨getPost_vote s pid uid v, getPost_voteSeq vs s pid uid⟩

/-- C3 counterexample: on a cast (no previous vote), `vote` issues the
counter mutation first and the vote-record write second, so the record
mutation is not performed before the counter mutation. -/
theorem C3_counterexample :
    ¬ ((voteOps none "p" "a" 1).map opKind = [.recordMut, .counterMut]) := by
  decide

/-- C3 (amended): the vote-record mutation precedes the counter mutation
only on the unvote branch; on the cast and switch branches the counter
mutation on the subject is issued first and the vote-record write second. -/
theorem C3_amended_order (prev : Option Int) (pid uid : String) (v : Int) :
    (voteOps prev pid uid v).map opKind
      = if prev = some v then [.recordMut, .counterMut]
        else [.counterMut, .recordMut] := by
  unfold voteOps
  by_cases h : prev = some v
  · rw [if_pos h, if_pos h]
    by_cases hv : v = 1 <;> simp [hv, opKind]
  · rw [if_neg h, if_neg h]
    cases prev <;> by_cases hv : v = 1 <;> simp [hv, opKind]

/-- C4 counterexample: from a consistent state where the voter already
holds a `-1` vote, submitting `(+1, +1)` ends with counters `(0, 0)`,
not the pre-first-submission `(0, 1)` — the first call is a switch, so the
pair of identical submissions does not restore the counters. -/
theorem C4_counterexample :
    getPost (vote (vote ⟨[⟨"p", 0, 1⟩], [⟨"p", "a", -1⟩]⟩ "p" "a" 1) "p" "a" 1) "p"
      ≠ getPost (⟨[⟨"p", 0, 1⟩], [⟨"p", "a", -1⟩]⟩ : Store) "p" := by
  decide

/-- C4 (amended): from every starting state in which the voter has no
existing vote, submitting the same value twice classifies the second call
as `Unvote` and restores the subject's counters to their pre-first-vote
values. -/
theorem C4_amended_double_vote (s : Store) (pid uid : String) (v : Int)
    (h : getPrev s pid uid = none) :
    classify (getPrev (vote s pid uid v) pid uid) v = .unvote v
    ∧ getPost (vote (vote s pid uid v) pid uid v) pid = getPost s pid := by
  have e1 : getPrev (vote s pid uid v) pid uid = some v := by
    rw [getPrev_vote, h]
    simp [afterPrev]
  constructor
  · rw [e1]
    simp [classify]
  · rw [getPost_vote (vote s pid uid v) pid uid v,
        getPost_vote s pid uid v, e1, h, Option.map_map]
    cases getPost s pid with
    | none => rfl
    | some p =>
        by_cases hv : v = 1 <;>
          simp [Function.comp, classify, deltaTable, addDelta, hv]

/-- C4 amended witness at a concrete fresh post. -/
theorem C4_amended_double_vote_witness :
    classify (getPrev (vote ⟨[⟨"p", 0, 0⟩], []⟩ "p" "a" 1) "p" "a") 1 = .unvote 1
    ∧ getPost (vote (vote ⟨[⟨"p", 0, 0⟩], []⟩ "p" "a" 1) "p" "a" 1) "p"
        = getPost (⟨[⟨"p", 0, 0⟩], []⟩ : Store) "p" :=
  C4_amended_double_vote ⟨[⟨"p", 0, 0⟩], []⟩ "p" "a" 1 (by decide)

/-- C5: starting with no existing vote, the sequence `+1, -1, +1` leaves
the subject's counters and the voter's record identical to the state just
after the original cast of `+1`. -/
theorem C5_round_trip (s : Store) (pid uid : String)
    (h : getPrev s pid uid = none) :
    getPost (vote (vote (vote s pid uid 1) pid uid (-1)) pid uid 1) pid
      = getPost (vote s pid uid 1) pid
    ∧ getPrev (vote (vote (vote s pid uid 1) pid uid (-1)) pid uid 1) pid uid
      = getPrev (vote s pid uid 1) pid uid := by
  have e1 : getPrev (vote s pid uid 1) pid uid = some 1 := by
    rw [getPrev_vote, h]
    simp [afterPrev]
  have e2 : getPrev (vote (vote s pid uid 1) pid uid (-1)) pid uid = some (-1) := by
    rw [getPrev_vote, e1]
    simp [afterPrev]
  constructor
  · rw [getPost_vote (vote (vote s pid uid 1) pid uid (-1)) pid uid 1,
        getPost_vote (vote s pid uid 1) pid uid (-1), e1, e2, Option.map_map]
    cases getPost (vote s pid uid 1) pid with
    | none => rfl
    | some p =>
        simp [Function.comp, classify, deltaTable, addDelta]
  · rw [getPrev_vote, e2, e1]
    simp [afterPrev]

/-- C5 witness at a concrete fresh post. -/
theorem C5_round_trip_witness :
    getPost (vote (vote (vote ⟨[⟨"p", 0, 0⟩], []⟩ "p" "a" 1) "p" "a" (-1)) "p" "a" 1) "p"
      = getPost (vote ⟨[⟨"p", 0, 0⟩], []⟩ "p" "a" 1) "p"
    ∧ getPrev (vote (vote (vote ⟨[⟨"p", 0, 0⟩], []⟩ "p" "a" 1) "p" "a" (-1)) "p" "a" 1) "p" "a"
      = getPrev (vote ⟨[⟨"p", 0, 0⟩], []⟩ "p" "a" 1) "p" "a" :=
  C5_round_trip ⟨[⟨"p", 0, 0⟩], []⟩ "p" "a" (by decide)

end WattWise
namespace WattWise

/-- C2 counterexample: at a desynchronized state (`upVotes = 0` while the
voter holds a stored `+1` vote), the unvote delta is applied rather than
the mutation failing closed — the counter lands at `-1`, negative. -/
theorem C2_counterexample :
    getPost (vote ⟨[⟨"p", 0, 0⟩], [⟨"p", "a", 1⟩]⟩ "p" "a" 1) "p"
      = some ⟨"p", -1, 0⟩
    ∧ ¬ (0 ≤ (-1 : Int)) := by
  refine ⟨by decide, by decide⟩

/-- C2 (amended): from a consistent state (counters equal to vote tallies,
unique keys, admissible stored values) every sequence of vote operations
keeps the store consistent and the counters non-negative; however the code
has no underflow guard, so from a desynchronized state the delta is applied
and the counter goes negative rather than the mutation being aborted. -/
theorem C2_amended_nonneg (vs : List Int) (s : Store) (pid uid : String)
    (hvs : ∀ v ∈ vs, v = 1 ∨ v = -1) (hc : Consistent s) :
    Consistent (voteSeq s pid uid vs)
    ∧ ∀ p ∈ (voteSeq s pid uid vs).posts, 0 ≤ p.upVotes ∧ 0 ≤ p.downVotes := by
  have h := consistent_voteSeq vs s pid uid hvs hc
  exact ⟨h, consistent_nonneg _ h⟩

/-- C2 amended witness at a concrete fresh post and submission sequence. -/
theorem C2_amended_nonneg_witness :
    Consistent (voteSeq ⟨[⟨"p", 0, 0⟩], []⟩ "p" "a" [1, -1, -1])
    ∧ ∀ p ∈ (voteSeq (⟨[⟨"p", 0, 0⟩], []⟩ : Store) "p" "a" [1, -1, -1]).posts,
        0 ≤ p.upVotes ∧ 0 ≤ p.downVotes :=
  C2_amended_nonneg [1, -1, -1] ⟨[⟨"p", 0, 0⟩], []⟩ "p" "a"
    (by decide)
    ⟨by simp [UniqueVotes], by simp, by
      intro p hp
      simp only [List.mem_singleton] at hp
      subst hp
      simp [upTally, downTally]⟩

/-- C9: the vote record is uniquely keyed by `(subjectId, voterId)`:
every `vote` call preserves key uniqueness, after it every key holds at
most one record, and absence of the record at the key is exactly the
voter having no previous vote. -/
theorem C9_unique_vote_record (s : Store) (pid uid : String) (v : Int)
    (h : UniqueVotes s) :
    UniqueVotes (vote s pid uid v)
    ∧ (∀ pid2 uid2, voteRecCount (vote s pid uid v) pid2 uid2 ≤ 1)
    ∧ (getPrev s pid uid = none ↔ ∀ r ∈ s.votes, isKey pid uid r = false) := by
  refine ⟨uniqueVotes_vote s pid uid v h, ?_, ?_, ?_⟩
  · intro pid2 uid2
    exact voteRecCount_le_one _ pid2 uid2 (uniqueVotes_vote s pid uid v h)
  · intro hnone r hr
    have hf := getPrev_eq_none hnone
    have := List.find?_eq_none.1 hf r hr
    simpa using this
  · intro hall
    unfold getPrev
    rw [List.find?_eq_none.2 (fun x hx => by simp [hall x hx])]
    rfl

/-- C9 witness at a concrete store. -/
theorem C9_unique_vote_record_witness :
    UniqueVotes (vote ⟨[⟨"p", 0, 0⟩], []⟩ "p" "a" 1)
    ∧ (∀ pid2 uid2, voteRecCount (vote ⟨[⟨"p", 0, 0⟩], []⟩ "p" "a" 1) pid2 uid2 ≤ 1)
    ∧ (getPrev (⟨[⟨"p", 0, 0⟩], []⟩ : Store) "p" "a" = none
        ↔ ∀ r ∈ (⟨[⟨"p", 0, 0⟩], []⟩ : Store).votes, isKey "p" "a" r = false) :=
  C9_unique_vote_record ⟨[⟨"p", 0, 0⟩], []⟩ "p" "a" 1 (by simp [UniqueVotes])

end WattWise
namespace WattWise

/-- C6: one notification is dispatched exactly when the transition is a
cast or a switch and the voter is not the subject's owner — none on unvote
or self-vote — so over a submission sequence the number of dispatched
notifications is the number of cast/switch outcomes (zero for the
owner voting on their own subject). -/
theorem C6_notification_policy (t : Transition) (ownerId voterId pid : String)
    (log : List NotificationData) (prev : Option Int) (vs : List Int) :
    (maybeNotify t ownerId voterId pid log).length
      = log.length + (if isCastOrSwitch t = true ∧ ¬ voterId = ownerId then 1 else 0)
    ∧ (notifSeq prev ownerId voterId pid log vs).length
      = log.length + (if voterId = ownerId then 0
          else (transSeq prev vs).countP isCastOrSwitch) := by
  constructor
  · cases t <;> by_cases ho : voterId = ownerId <;>
      simp [maybeNotify, createNotification, isCastOrSwitch, ho]
  · induction vs generalizing prev log with
    | nil =>
        by_cases ho : voterId = ownerId <;> simp [notifSeq, transSeq, ho]
    | cons v vs ih =>
        show (notifSeq (afterPrev prev v) ownerId voterId pid
            (maybeNotify (classify prev v) ownerId voterId pid log) vs).length = _
        rw [(ih (maybeNotify (classify prev v) ownerId voterId pid log) (afterPrev prev v))]
        by_cases ho : voterId = ownerId <;>
          cases hcl : classify prev v <;>
            simp [maybeNotify, createNotification, isCastOrSwitch, ho, transSeq,
              List.countP_cons, hcl] <;> omega

end WattWise
namespace WattWise

/-- The query model returns nothing exactly on the empty set. -/
theorem topByKey_eq_none {α : Type} (key : α → Nat) (l : List α) :
    topByKey key l = none ↔ l = [] := by
  cases l with
  | nil => simp [topByKey]
  | cons a as =>
      simp only [topByKey]
      cases topByKey key as with
      | none => simp
      | some m => by_cases hlt : key a < key m <;> simp [hlt]

/-- Elements selected by `topByKey` come from the list. -/
theorem topByKey_mem {α : Type} (key : α → Nat) (l : List α) (r : α)
    (h : topByKey key l = some r) : r ∈ l := by
  induction l generalizing r with
  | nil => simp [topByKey] at h
  | cons a as ih =>
      rw [topByKey] at h
      cases hm : topByKey key as with
      | none =>
          simp only [hm] at h
          injection h with h
          simp [h.symm]
      | some m =>
          simp only [hm] at h
          by_cases hlt : key a < key m
          · rw [if_pos hlt] at h
            injection h with h
            subst h
            simp [ih m hm]
          · rw [if_neg hlt] at h
            injection h with h
            simp [h.symm]

/-- The element selected by `topByKey` has the maximal key. -/
theorem topByKey_max {α : Type} (key : α → Nat) (l : List α) (r : α)
    (h : topByKey key l = some r) : ∀ x ∈ l, key x ≤ key r := by
  induction l generalizing r with
  | nil => simp
  | cons a as ih =>
      intro x hx
      rw [topByKey] at h
      cases hm : topByKey key as with
      | none =>
          simp only [hm] at h
          injection h with h
          subst h
          have hasnil : as = [] := (topByKey_eq_none key as).1 hm
          subst hasnil
          rcases List.mem_cons.1 hx with hxa | hxs
          · exact hxa ▸ Nat.le_refl _
          · simp at hxs
      | some m =>
          simp only [hm] at h
          by_cases hlt : key a < key m
          · rw [if_pos hlt] at h
            injection h with h
            subst h
            rcases List.mem_cons.1 hx with hxa | hxs
            · exact hxa ▸ Nat.le_of_lt hlt
            · exact ih m hm x hxs
          · rw [if_neg hlt] at h
            injection h with h
            subst h
            rcases List.mem_cons.1 hx with hxa | hxs
            · exact hxa ▸ Nat.le_refl _
            · exact Nat.le_trans (ih m hm x hxs) (Nat.le_of_not_lt hlt)

end WattWise
namespace WattWise

/-- C7 counterexample: after a successful call has cached a summary for
identical content, a second call still invokes the generator (two
invocations over the two calls, not at most one) and appends a second
record instead of returning the existing one unchanged. -/
theorem C7_counterexample :
    (generatePostSummary (fun _ => .ok (some "s")) 0 "p" "c" []).2.1 = [⟨"p", "s", 0⟩]
    ∧ (generatePostSummary (fun _ => .ok (some "s")) 1 "p" "c" [⟨"p", "s", 0⟩]).2.2
        + (generatePostSummary (fun _ => .ok (some "s")) 0 "p" "c" []).2.2 = 2
    ∧ (generatePostSummary (fun _ => .ok (some "s")) 1 "p" "c" [⟨"p", "s", 0⟩]).2.1
        = [⟨"p", "s", 0⟩, ⟨"p", "s", 1⟩]
    ∧ ¬ (2 ≤ 1) := by
  refine ⟨by decide, by decide, by decide, by decide⟩

/-- C7 (amended): `generatePostSummary` performs no fingerprint check at
all — every call invokes the generator exactly once regardless of the
existing records, and on success it appends a fresh record (it never
returns an existing record in place of generating). -/
theorem C7_amended_always_generates (g : GenBehavior) (now : Nat)
    (pid content : String) (recs : List PostSummaryDoc) :
    (generatePostSummary g now pid content recs).2.2 = 1
    ∧ ((generatePostSummary g now pid content recs).2.1 = recs
        ∨ ∃ t, g content = .ok (some t)
            ∧ (generatePostSummary g now pid content recs).2.1
                = recs ++ [⟨pid, t, now⟩]) := by
  unfold generatePostSummary
  cases hg : g content with
  | error e => simp
  | ok o =>
      cases o with
      | none => simp
      | some t =>
          exact ⟨rfl, Or.inr ⟨t, rfl, rfl⟩⟩

/-- C8: when the generator throws or resolves to no summary, both
`generatePostSummary` and `generateCommentSummary` return `null`, leave
the summary collection untouched, and do not propagate the error (the
call returns normally). -/
theorem C8_generator_failure_isolated (g : GenBehavior) (now : Nat)
    (pid content : String) (recs : List PostSummaryDoc)
    (comments : List ForumCommentDoc) (crecs : List CommentSummaryDoc) :
    (g content = .error () → generatePostSummary g now pid content recs = (none, recs, 1))
    ∧ (g content = .ok none → generatePostSummary g now pid content recs = (none, recs, 1))
    ∧ (g (combinedContent comments) = .error () →
        generateCommentSummary g now pid comments crecs = (none, crecs, 1))
    ∧ (g (combinedContent comments) = .ok none →
        generateCommentSummary g now pid comments crecs = (none, crecs, 1)) := by
  refine ⟨?_, ?_, ?_, ?_⟩ <;>
    · intro h
      simp [generatePostSummary, generateCommentSummary, h]

/-- C8 witness at concrete failing generators. -/
theorem C8_generator_failure_isolated_witness :
    generatePostSummary (fun _ => .error ()) 0 "p" "c" [] = (none, [], 1)
    ∧ generateCommentSummary (fun _ => .ok none) 0 "p" [] [] = (none, [], 1) :=
  ⟨(C8_generator_failure_isolated (fun _ => .error ()) 0 "p" "c" [] [] []).1 rfl,
   (C8_generator_failure_isolated (fun _ => .ok none) 0 "p" "c" [] [] []).2.2.2 rfl⟩

end WattWise
namespace WattWise

/-- C10: `getPostSummary` and `getCommentSummary` are total — a store
error yields `null`, no matching record yields `null`, and whenever a
matching record exists the returned record is a matching one of maximal
`updatedAt`. -/
theorem C10_get_summary_total (pid : String) (recs : List PostSummaryDoc)
    (crecs : List CommentSummaryDoc) :
    getPostSummary (.error ()) pid = none
    ∧ (recs.filter (fun r => r.postId == pid) = [] →
        getPostSummary (.ok recs) pid = none)
    ∧ (∀ r, getPostSummary (.ok recs) pid = some r →
        r.postId = pid ∧ r ∈ recs
        ∧ ∀ r2 ∈ recs, r2.postId = pid → r2.updatedAt ≤ r.updatedAt)
    ∧ (recs.filter (fun r => r.postId == pid) ≠ [] →
        ∃ r, getPostSummary (.ok recs) pid = some r)
    ∧ getCommentSummary (.error ()) pid = none
    ∧ (crecs.filter (fun r => r.postId == pid) = [] →
        getCommentSummary (.ok crecs) pid = none)
    ∧ (∀ r, getCommentSummary (.ok crecs) pid = some r →
        r.postId = pid ∧ r ∈ crecs
        ∧ ∀ r2 ∈ crecs, r2.postId = pid → r2.updatedAt ≤ r.updatedAt)
    ∧ (crecs.filter (fun r => r.postId == pid) ≠ [] →
        ∃ r, getCommentSummary (.ok crecs) pid = some r) := by
  refine ⟨rfl, ?_, ?_, ?_, rfl, ?_, ?_, ?_⟩
  · intro h
    show topByKey _ _ = none
    rw [h]
    rfl
  · intro r h
    replace h : topByKey PostSummaryDoc.updatedAt
        (recs.filter (fun r => r.postId == pid)) = some r := h
    have hmem := topByKey_mem _ _ _ h
    rcases List.mem_filter.1 hmem with ⟨hr, hpid⟩
    refine ⟨by simpa using hpid, hr, ?_⟩
    intro r2 hr2 hpid2
    exact topByKey_max _ _ _ h r2 (List.mem_filter.2 ⟨hr2, by simp [hpid2]⟩)
  · intro h
    cases ht : topByKey PostSummaryDoc.updatedAt
        (recs.filter (fun r => r.postId == pid)) with
    | none => exact absurd ((topByKey_eq_none _ _).1 ht) h
    | some r => exact ⟨r, ht⟩
  · intro h
    show topByKey _ _ = none
    rw [h]
    rfl
  · intro r h
    replace h : topByKey CommentSummaryDoc.updatedAt
        (crecs.filter (fun r => r.postId == pid)) = some r := h
    have hmem := topByKey_mem _ _ _ h
    rcases List.mem_filter.1 hmem with ⟨hr, hpid⟩
    refine ⟨by simpa using hpid, hr, ?_⟩
    intro r2 hr2 hpid2
    exact topByKey_max _ _ _ h r2 (List.mem_filter.2 ⟨hr2, by simp [hpid2]⟩)
  · intro h
    cases ht : topByKey CommentSummaryDoc.updatedAt
        (crecs.filter (fun r => r.postId == pid)) with
    | none => exact absurd ((topByKey_eq_none _ _).1 ht) h
    | some r => exact ⟨r, ht⟩

/-- C10 witness at a concrete record set: the latest matching record is
returned. -/
theorem C10_get_summary_total_witness :
    ((⟨"p", "s3", 3⟩ : PostSummaryDoc).postId = "p"
      ∧ (⟨"p", "s3", 3⟩ : PostSummaryDoc)
          ∈ [(⟨"p", "s1", 0⟩ : PostSummaryDoc), ⟨"q", "s2", 5⟩, ⟨"p", "s3", 3⟩]
      ∧ ∀ r2 ∈ [(⟨"p", "s1", 0⟩ : PostSummaryDoc), ⟨"q", "s2", 5⟩, ⟨"p", "s3", 3⟩],
          r2.postId = "p" → r2.updatedAt ≤ (⟨"p", "s3", 3⟩ : PostSummaryDoc).updatedAt)
    ∧ getPostSummary (.ok []) "p" = none
    ∧ getCommentSummary (.error ()) "p" = none :=
  ⟨(C10_get_summary_total "p" [⟨"p", "s1", 0⟩, ⟨"q", "s2", 5⟩, ⟨"p", "s3", 3⟩] []).2.2.1
      ⟨"p", "s3", 3⟩ (by decide),
   (C10_get_summary_total "p" [] []).2.1 (by decide),
   (C10_get_summary_total "p" [] []).2.2.2.2.1⟩

end WattWise
